import Mathlib

/-!
Verification of the LegiScan archive-to-corpus pipeline of the
`arc-radius-api` repository: the safe zip extractor, the archive
resolver, dataset discovery, the per-bill aggregator and the two corpus
builders (`src/datasources/cleaning/concat_with_join_legiscan.py`,
`src/datasources/cleaning/concat_bills.py`,
`src/scripts/join_legiscan_csvs.py`,
`src/scripts/concat_legiscan_combined.py`).

Modelling conventions:
* filesystem paths are lists of name components (the `/` anchor is
  dropped, so the root path is `[]`);
* pandas data frames are lists of typed rows; a value that pandas may
  hold as `NaN` is an `Option`;
* fallible code is modelled with `Option` or an explicit error
  component instead of raised exceptions;
* `sort_values` is modelled by a stable insertion sort over a boolean
  comparator.
-/

namespace ArcRadius

/-! ### Generic list helpers -/

/-- Insert `a` into `l` in front of the first element `b` with
`le a b = true`; stable with respect to the original order. -/
def insertSorted (le : α → α → Bool) (a : α) : List α → List α
  | [] => [a]
  | b :: l => if le a b then a :: b :: l else b :: insertSorted le a l

/-- Stable insertion sort by a boolean comparator; the model of a
pandas `sort_values` call. -/
def insSort (le : α → α → Bool) : List α → List α
  | [] => []
  | a :: l => insertSorted le a (insSort le l)

theorem mem_insertSorted {le : α → α → Bool} {a x : α} {l : List α} :
    x ∈ insertSorted le a l ↔ x ∈ a :: l := by
  induction l with
  | nil => simp [insertSorted]
  | cons b l ih =>
    simp only [insertSorted]
    split
    · simp
    · simp only [List.mem_cons] at ih ⊢
      tauto

theorem mem_insSort {le : α → α → Bool} {x : α} {l : List α} :
    x ∈ insSort le l ↔ x ∈ l := by
  induction l with
  | nil => simp [insSort]
  | cons a l ih =>
    simp only [insSort, mem_insertSorted, List.mem_cons, ih]

theorem countP_insertSorted (p : α → Bool) (le : α → α → Bool) (a : α) (l : List α) :
    (insertSorted le a l).countP p = ((a :: l).countP p) := by
  induction l with
  | nil => rfl
  | cons b l ih =>
    simp only [insertSorted]
    split
    · rfl
    · simp only [List.countP_cons, ih]
      omega

theorem countP_insSort (p : α → Bool) (le : α → α → Bool) (l : List α) :
    (insSort le l).countP p = l.countP p := by
  induction l with
  | nil => rfl
  | cons a l ih =>
    simp only [insSort, countP_insertSorted, List.countP_cons, ih]

theorem insertSorted_map (f : α → β) (le : α → α → Bool) (leB : β → β → Bool)
    (hf : ∀ a b, leB (f a) (f b) = le a b) (a : α) (l : List α) :
    insertSorted leB (f a) (l.map f) = (insertSorted le a l).map f := by
  induction l with
  | nil => rfl
  | cons b l ih =>
    simp only [List.map_cons, insertSorted, hf]
    split <;> simp [ih]

theorem insSort_map (f : α → β) (le : α → α → Bool) (leB : β → β → Bool)
    (hf : ∀ a b, leB (f a) (f b) = le a b) (l : List α) :
    insSort leB (l.map f) = (insSort le l).map f := by
  induction l with
  | nil => rfl
  | cons a l ih =>
    simp only [List.map_cons, insSort, ih, insertSorted_map f le leB hf]

theorem pairwise_insertSorted {le : α → α → Bool}
    (htot : ∀ a b, le a b = true ∨ le b a = true)
    (htrans : ∀ a b c, le a b = true → le b c = true → le a c = true)
    (a : α) :
    ∀ {l : List α}, l.Pairwise (fun x y => le x y = true) →
      (insertSorted le a l).Pairwise (fun x y => le x y = true) := by
  intro l
  induction l with
  | nil => intro _; simp [insertSorted]
  | cons b l ih =>
    intro h
    rcases List.pairwise_cons.mp h with ⟨hb, hl⟩
    simp only [insertSorted]
    split
    · rename_i hab
      refine List.pairwise_cons.mpr ⟨?_, h⟩
      intro y hy
      rcases List.mem_cons.mp hy with rfl | hyl
      · exact hab
      · exact htrans _ _ _ hab (hb y hyl)
    · rename_i hab
      refine List.pairwise_cons.mpr ⟨?_, ih hl⟩
      intro y hy
      rcases List.mem_cons.mp (mem_insertSorted.mp hy) with hEq | hyl
      · rw [hEq]
        rcases htot a b with hba | hba
        · exact absurd hba hab
        · exact hba
      · exact hb y hyl

theorem pairwise_insSort {le : α → α → Bool}
    (htot : ∀ a b, le a b = true ∨ le b a = true)
    (htrans : ∀ a b c, le a b = true → le b c = true → le a c = true)
    (l : List α) :
    (insSort le l).Pairwise (fun x y => le x y = true) := by
  induction l with
  | nil => simp [insSort]
  | cons a l ih => exact pairwise_insertSorted htot htrans a ih

/-- Keep-first deduplication with an accumulator of already seen
elements; the model of pandas `drop_duplicates` and of the key order of
`groupby(..., sort=False)`. -/
def dedupFirstAux [DecidableEq α] (seen : List α) : List α → List α
  | [] => []
  | x :: xs =>
    if x ∈ seen then dedupFirstAux (x :: seen) xs
    else x :: dedupFirstAux (x :: seen) xs

/-- Keep the first occurrence of every element, dropping later
duplicates. -/
def dedupFirst [DecidableEq α] (l : List α) : List α := dedupFirstAux [] l

theorem mem_dedupFirstAux [DecidableEq α] {x : α} :
    ∀ {l seen : List α}, x ∈ dedupFirstAux seen l ↔ (x ∈ l ∧ x ∉ seen) := by
  intro l
  induction l with
  | nil => simp [dedupFirstAux]
  | cons y ys ih =>
    intro seen
    by_cases hy : y ∈ seen
    · by_cases hxy : x = y
      · subst hxy
        simp only [dedupFirstAux, if_pos hy, ih, List.mem_cons]
        tauto
      · simp only [dedupFirstAux, if_pos hy, ih, List.mem_cons]
        tauto
    · by_cases hxy : x = y
      · subst hxy
        simp only [dedupFirstAux, if_neg hy, List.mem_cons, ih]
        tauto
      · simp only [dedupFirstAux, if_neg hy, List.mem_cons, ih]
        tauto

theorem mem_dedupFirst [DecidableEq α] {x : α} {l : List α} :
    x ∈ dedupFirst l ↔ x ∈ l := by
  simp [dedupFirst, mem_dedupFirstAux]

theorem nodup_dedupFirstAux [DecidableEq α] :
    ∀ {l seen : List α}, (dedupFirstAux seen l).Nodup := by
  intro l
  induction l with
  | nil => simp [dedupFirstAux]
  | cons y ys ih =>
    intro seen
    by_cases hy : y ∈ seen
    · simp only [dedupFirstAux, if_pos hy]
      exact ih
    · simp only [dedupFirstAux, if_neg hy]
      refine List.nodup_cons.mpr ⟨?_, ih⟩
      intro hmem
      exact (mem_dedupFirstAux.mp hmem).2 (List.mem_cons_self y seen)

theorem nodup_dedupFirst [DecidableEq α] {l : List α} : (dedupFirst l).Nodup :=
  nodup_dedupFirstAux

/-- Number of rows that are equal to some earlier row (`seen` holds the
rows encountered so far). -/
def dupRowCount [DecidableEq α] (seen : List α) : List α → Nat
  | [] => 0
  | x :: xs => (if x ∈ seen then 1 else 0) + dupRowCount (x :: seen) xs

theorem length_dedupFirstAux_add_dupRowCount [DecidableEq α] :
    ∀ {l seen : List α},
      (dedupFirstAux seen l).length + dupRowCount seen l = l.length := by
  intro l
  induction l with
  | nil => simp [dedupFirstAux, dupRowCount]
  | cons y ys ih =>
    intro seen
    have hrec := @ih (y :: seen)
    by_cases hy : y ∈ seen
    · simp only [dedupFirstAux, dupRowCount, if_pos hy, List.length_cons]
      omega
    · simp only [dedupFirstAux, dupRowCount, if_neg hy, List.length_cons]
      omega

theorem head?_filter (p : α → Bool) (l : List α) :
    (l.filter p).head? = l.find? p := by
  induction l with
  | nil => rfl
  | cons x xs ih =>
    cases hp : p x <;> simp [List.filter_cons, List.find?_cons, hp, ih]

theorem find?_beq_mem [BEq α] [LawfulBEq α] (l : List α) (b : α) :
    l.find? (fun a => a == b) = if b ∈ l then some b else none := by
  induction l with
  | nil => simp
  | cons x xs ih =>
    by_cases hx : x = b
    · subst hx
      simp [List.find?_cons]
    · have hbeq : (x == b) = false := by
        simp [hx]
      simp only [List.find?_cons, hbeq, ih, List.mem_cons]
      have : ¬ b = x := fun h => hx h.symm
      simp [this]

theorem find?_map_key {β : Type _} (f : String → β) (keyOf : β → String)
    (hk : ∀ k, keyOf (f k) = k) (keys : List String) (b : String) :
    (keys.map f).find? (fun a => keyOf a == b)
      = if b ∈ keys then some (f b) else none := by
  rw [List.find?_map]
  have : ((fun a => keyOf a == b) ∘ f) = fun k => k == b := by
    funext k
    simp [Function.comp, hk]
  rw [this, find?_beq_mem]
  split <;> simp

theorem filter_key_eq_nil {β : Type _} {keyOf : β → String} {k : String}
    {l : List β} (h : k ∉ l.map keyOf) :
    l.filter (fun x => keyOf x == k) = [] := by
  rw [List.filter_eq_nil_iff]
  intro x hx
  simp only [beq_iff_eq]
  intro heq
  exact h (heq ▸ List.mem_map_of_mem keyOf hx)

theorem filter_key_eq_find_toList {β : Type _} (keyOf : β → String) (k : String) :
    ∀ {l : List β}, (l.map keyOf).Nodup →
      l.filter (fun x => keyOf x == k)
        = (l.find? (fun x => keyOf x == k)).toList := by
  intro l
  induction l with
  | nil => simp
  | cons x xs ih =>
    intro hnd
    rw [List.map_cons] at hnd
    rcases List.nodup_cons.mp hnd with ⟨hx, hxs⟩
    by_cases hk : keyOf x = k
    · have hbeq : (keyOf x == k) = true := by simp [hk]
      have hnil : xs.filter (fun y => keyOf y == k) = [] := by
        apply filter_key_eq_nil
        intro hmem
        exact hx (hk ▸ hmem)
      simp [List.filter_cons, List.find?_cons, hbeq, hnil]
    · have hbeq : (keyOf x == k) = false := by simp [hk]
      simp [List.filter_cons, List.find?_cons, hbeq, ih hxs]

theorem length_filterMap_of_isSome (f : α → Option β) :
    ∀ {l : List α}, (∀ x ∈ l, (f x).isSome = true) →
      (l.filterMap f).length = l.length := by
  intro l
  induction l with
  | nil => simp
  | cons x xs ih =>
    intro h
    rcases Option.isSome_iff_exists.mp (h x (List.mem_cons_self x xs)) with ⟨b, hb⟩
    simp only [List.filterMap_cons, hb, List.length_cons]
    rw [ih (fun y hy => h y (List.mem_cons_of_mem x hy))]

/-! ### `letters_only` (`concat_with_join_legiscan.py`, `concat_bills.py`)

`re.sub(r"[^A-Za-z]", "", s)`: keep exactly the ASCII letters of `s`. -/

/-- Whether a character is an ASCII letter, i.e. matches `[A-Za-z]`. -/
def isAsciiLetter (c : Char) : Bool :=
  ('A' ≤ c && c ≤ 'Z') || ('a' ≤ c && c ≤ 'z')

/-- `letters_only`: strip every character that is not an ASCII letter. -/
def letters_only (s : String) : String :=
  String.mk (s.data.filter isAsciiLetter)

/-! ### Safe Extractor (`safe_extract_zip`, identical in
`concat_with_join_legiscan.py` lines 65-88 and `concat_bills.py`
lines 48-71)

The destination directory is an already resolved absolute path, given
as its list of components.  A member is given by
`Path(member.filename).parts` (pathlib never keeps `"."` components)
together with the directory flag (`member.filename` ends in `"/"`). -/

/-- One zip archive member. -/
structure ZipEntry where
  parts : List String
  isDir : Bool
deriving DecidableEq

/-- The `member.filename` string of an entry. -/
def ZipEntry.filename (e : ZipEntry) : String :=
  String.intercalate ("/") e.parts ++ (if e.isDir then ("/") else (""))

/-- `str.endswith(suffix)` over the underlying character lists. -/
def strEndsWith (s sfx : String) : Bool :=
  sfx.data.isSuffixOf s.data

/-- The macOS-junk test performed first for every member:
`"__MACOSX" in member_path.parts` or
`member.filename.endswith(".DS_Store")`. -/
def isJunkEntry (e : ZipEntry) : Bool :=
  e.parts.contains ("__MACOSX") || strEndsWith e.filename (".DS_Store")

/-- `(dest_dir / member_path).resolve()`: append the member components
to the destination, collapsing `".."` against the path built so far
(at the filesystem root, `".."` is dropped, as `resolve` does; the
model has no symbolic links). -/
def resolveUnder (destDir : List String) (parts : List String) : List String :=
  parts.foldl (fun acc c => if c == ("..") then acc.dropLast else acc ++ [c]) destDir

/-- `is_within_directory`: `target.resolve().relative_to(base.resolve())`
succeeds exactly when `base` is a prefix of the resolved target. -/
def is_within_directory (base target : List String) : Bool :=
  base.isPrefixOf target

/-- A filesystem effect of extraction. -/
inductive FileAction where
  | createDir (path : List String)
  | writeFile (path : List String)
deriving DecidableEq

/-- The message of the `RuntimeError` raised for a zip-slip entry. -/
def unsafeEntryMessage (e : ZipEntry) : String :=
  "Unsafe path detected in zip (zip-slip): " ++ e.filename

/-- `safe_extract_zip`: walk the members in order; skip macOS junk
before any other check; resolve every other member under the
destination and abort with the zip-slip error when it escapes;
otherwise create the directory (for a directory member) or the parent
directory plus the file bytes (for a file member).  Returns the
actions performed in order, and the error if extraction was aborted. -/
def safe_extract_zip (destDir : List String) :
    List ZipEntry → List FileAction × Option String
  | [] => ([], none)
  | e :: es =>
    if isJunkEntry e then safe_extract_zip destDir es
    else
      let outPath := resolveUnder destDir e.parts
      if is_within_directory destDir outPath then
        let acts := if e.isDir then [FileAction.createDir outPath]
          else [FileAction.createDir outPath.dropLast, FileAction.writeFile outPath]
        let rest := safe_extract_zip destDir es
        (acts ++ rest.1, rest.2)
      else ([], some (unsafeEntryMessage e))

theorem safe_extract_zip_junk_cons (destDir : List String) (e : ZipEntry)
    (es : List ZipEntry) (hj : isJunkEntry e = true) :
    safe_extract_zip destDir (e :: es) = safe_extract_zip destDir es := by
  simp [safe_extract_zip, hj]

/-- Every file written by `safe_extract_zip` lies inside the
destination directory, unconditionally. -/
theorem safe_extract_zip_writes_within (destDir : List String) :
    ∀ (entries : List ZipEntry) (p : List String),
      FileAction.writeFile p ∈ (safe_extract_zip destDir entries).1 →
      is_within_directory destDir p = true := by
  intro entries
  induction entries with
  | nil =>
    intro p hp
    simp [safe_extract_zip] at hp
  | cons e es ih =>
    intro p hp
    cases hj : isJunkEntry e with
    | true =>
      rw [safe_extract_zip_junk_cons destDir e es hj] at hp
      exact ih p hp
    | false =>
      simp only [safe_extract_zip, hj, Bool.false_eq_true, if_false] at hp
      cases hw : is_within_directory destDir (resolveUnder destDir e.parts) with
      | false => simp [hw] at hp
      | true =>
        rw [if_pos (by simp [hw])] at hp
        simp only [List.mem_append] at hp
        rcases hp with hp | hp
        · cases hd : e.isDir with
          | true => simp [hd] at hp
          | false =>
            simp only [hd, Bool.false_eq_true, if_false, List.mem_cons,
              List.mem_singleton] at hp
            rcases hp with hp | hp | hp
            · cases hp
            · injection hp with hpe
              rw [hpe]
              exact hw
            · cases hp
        · exact ih p hp

/-- If some non-junk member of the archive resolves outside the
destination, extraction reports the zip-slip error for such a member. -/
theorem safe_extract_zip_error_of_escape (destDir : List String) :
    ∀ (entries : List ZipEntry) (e : ZipEntry), e ∈ entries →
      isJunkEntry e = false →
      is_within_directory destDir (resolveUnder destDir e.parts) = false →
      ∃ bad, (safe_extract_zip destDir entries).2 = some (unsafeEntryMessage bad)
        ∧ isJunkEntry bad = false
        ∧ is_within_directory destDir (resolveUnder destDir bad.parts) = false := by
  intro entries
  induction entries with
  | nil =>
    intro e he
    cases he
  | cons x es ih =>
    intro e he hj hesc
    cases hjx : isJunkEntry x with
    | true =>
      have hex : e ≠ x := by
        intro hEq
        rw [hEq, hjx] at hj
        cases hj
      have hees : e ∈ es := by
        rcases List.mem_cons.mp he with hEq | h2
        · exact absurd hEq hex
        · exact h2
      rw [safe_extract_zip_junk_cons destDir x es hjx]
      exact ih e hees hj hesc
    | false =>
      cases hwx : is_within_directory destDir (resolveUnder destDir x.parts) with
      | true =>
        have hex : e ≠ x := by
          intro hEq
          rw [hEq, hwx] at hesc
          cases hesc
        have hees : e ∈ es := by
          rcases List.mem_cons.mp he with hEq | h2
          · exact absurd hEq hex
          · exact h2
        have hrec := ih e hees hj hesc
        simp only [safe_extract_zip, hjx, Bool.false_eq_true, if_false, hwx,
          if_true, if_pos]
        exact hrec
      | false =>
        refine ⟨x, ?_, hjx, hwx⟩
        simp [safe_extract_zip, hjx, hwx]

/-- Claim C1, counterexample: the file entry `__MACOSX/../../evil.txt`
has a traversal sequence and resolves outside the destination
directory `tmp/out`, yet `safe_extract_zip` raises no unsafe-entry
error for the archive consisting of it — the member is skipped as
macOS junk before the containment check — so extraction is not aborted
at that entry, contrary to the claim as stated. -/
theorem traversal_junk_entry_not_rejected :
    (ZipEntry.mk ["__MACOSX", "..", "..", "evil.txt"] false).parts.contains ("..") = true
    ∧ is_within_directory ["tmp", "out"]
        (resolveUnder ["tmp", "out"]
          (ZipEntry.mk ["__MACOSX", "..", "..", "evil.txt"] false).parts) = false
    ∧ safe_extract_zip ["tmp", "out"]
        [ZipEntry.mk ["__MACOSX", "..", "..", "evil.txt"] false] = ([], none) := by
  refine ⟨by decide, by decide, by decide⟩

/-- Claim C1 (amended: restricted to entries that are not skipped as
macOS junk): for every archive entry that is not macOS junk and whose
resolved target path escapes the destination directory, extraction of
the archive fails with the distinct unsafe-entry error — it aborts at
the first such entry rather than silently continuing — and no file is
ever written outside the destination directory. -/
theorem safe_extract_rejects_escaping_entries (destDir : List String)
    (entries : List ZipEntry) (e : ZipEntry) (he : e ∈ entries)
    (hj : isJunkEntry e = false)
    (hesc : is_within_directory destDir (resolveUnder destDir e.parts) = false) :
    (∀ p, FileAction.writeFile p ∈ (safe_extract_zip destDir entries).1 →
        is_within_directory destDir p = true)
    ∧ ∃ bad, (safe_extract_zip destDir entries).2 = some (unsafeEntryMessage bad)
        ∧ isJunkEntry bad = false
        ∧ is_within_directory destDir (resolveUnder destDir bad.parts) = false :=
  ⟨fun p => safe_extract_zip_writes_within destDir entries p,
    safe_extract_zip_error_of_escape destDir entries e he hj hesc⟩

/-- Witness for the amended claim C1 at a concrete archive: the file
entry `../evil.txt` is not junk and escapes `tmp/out`, so extraction
reports the zip-slip error. -/
theorem safe_extract_rejects_escaping_entries_witness :
    (∀ p, FileAction.writeFile p ∈
        (safe_extract_zip ["tmp", "out"] [ZipEntry.mk ["..", "evil.txt"] false]).1 →
        is_within_directory ["tmp", "out"] p = true)
    ∧ ∃ bad, (safe_extract_zip ["tmp", "out"]
          [ZipEntry.mk ["..", "evil.txt"] false]).2 = some (unsafeEntryMessage bad)
        ∧ isJunkEntry bad = false
        ∧ is_within_directory ["tmp", "out"]
            (resolveUnder ["tmp", "out"] bad.parts) = false :=
  safe_extract_rejects_escaping_entries ["tmp", "out"]
    [ZipEntry.mk ["..", "evil.txt"] false] (ZipEntry.mk ["..", "evil.txt"] false)
    (List.mem_singleton.mpr rfl) (by decide) (by decide)

/-- Claim C10: a zip entry with a `__MACOSX` path component or a
filename ending in `.DS_Store` is skipped before the containment check
is performed: extracting an archive starting with such an entry equals
extracting the remainder, so no file or directory is created for it
and no unsafe-entry error is raised, even when its resolved path would
escape the destination directory. -/
theorem junk_entries_skipped_before_check (destDir : List String) (e : ZipEntry)
    (es : List ZipEntry) (hj : isJunkEntry e = true) :
    safe_extract_zip destDir (e :: es) = safe_extract_zip destDir es :=
  safe_extract_zip_junk_cons destDir e es hj

/-- Witness for claim C10 at a concrete junk entry whose resolved path
escapes the destination (`__MACOSX/../../x.DS_Store`). -/
theorem junk_entries_skipped_before_check_witness :
    isJunkEntry (ZipEntry.mk ["__MACOSX", "..", "..", "x.DS_Store"] false) = true
    ∧ safe_extract_zip ["tmp", "out"]
        [ZipEntry.mk ["__MACOSX", "..", "..", "x.DS_Store"] false] = ([], none) := by
  refine ⟨by decide, ?_⟩
  rw [junk_entries_skipped_before_check ["tmp", "out"]
    (ZipEntry.mk ["__MACOSX", "..", "..", "x.DS_Store"] false) [] (by decide)]
  rfl

/-! ### Archive Resolver (`resolve_root_dir`, identical in
`concat_with_join_legiscan.py` lines 91-116 and `concat_bills.py`
lines 74-99)

The input path is split into its stem and final suffix; `fs` records
the answers the function queries from the filesystem: existence and
modification times of the derived archive and directory paths. -/

/-- Filesystem facts consulted by the resolver. -/
structure ResolverFS where
  zipExists : Bool
  dirExists : Bool
  zipMtime : Int
  dirMtime : Int
deriving DecidableEq

/-- A filesystem effect of the resolver. -/
inductive ResolverAction where
  | rmtree (path : String)
  | mkdir (path : String)
  | extractZip (zipPath dirPath : String)
deriving DecidableEq

/-- The archive/directory path pair derived from the input path (stem
plus final suffix): a `.zip` input names the archive and the directory
drops the suffix (`with_suffix("")`); any other input names the
directory and the archive replaces the final suffix with `.zip`
(`with_suffix(".zip")`). -/
def derive_paths (stem sfx : String) : String × String :=
  if sfx == (".zip") then (stem ++ (".zip"), stem)
  else (stem ++ (".zip"), stem ++ sfx)

/-- `resolve_root_dir`, translated branch for branch from the source;
returns the directory root and the actions performed, or the
`FileNotFoundError`. -/
def resolve_root_dir (stem sfx : String) (fs : ResolverFS) :
    Except String (String × List ResolverAction) :=
  let zipPath := (derive_paths stem sfx).1
  let dirPath := (derive_paths stem sfx).2
  if fs.zipExists then
    if fs.dirExists then
      if fs.zipMtime > fs.dirMtime then
        Except.ok (dirPath,
          [ResolverAction.rmtree dirPath, ResolverAction.mkdir dirPath,
            ResolverAction.extractZip zipPath dirPath])
      else Except.ok (dirPath, [])
    else
      Except.ok (dirPath,
        [ResolverAction.mkdir dirPath, ResolverAction.extractZip zipPath dirPath])
  else if fs.dirExists then Except.ok (dirPath, [])
  else Except.error ("No valid zip or directory found.")

/-- The Archive Resolver decision table exactly as the specification
states it, row by row: (archive exists?, directory exists?, archive
newer?) determine the action. -/
def resolver_decision_table (stem sfx : String) (fs : ResolverFS) :
    Except String (String × List ResolverAction) :=
  let zipPath := (derive_paths stem sfx).1
  let dirPath := (derive_paths stem sfx).2
  match fs.zipExists, fs.dirExists with
  | false, false => Except.error ("No valid zip or directory found.")
  | false, true => Except.ok (dirPath, [])
  | true, false =>
    Except.ok (dirPath,
      [ResolverAction.mkdir dirPath, ResolverAction.extractZip zipPath dirPath])
  | true, true =>
    if fs.zipMtime > fs.dirMtime then
      Except.ok (dirPath,
        [ResolverAction.rmtree dirPath, ResolverAction.mkdir dirPath,
          ResolverAction.extractZip zipPath dirPath])
    else Except.ok (dirPath, [])

/-- Claim C2: the Archive Resolver follows the decision table: neither
archive nor directory → fail; only directory → return it; only archive
→ create directory and extract; both with archive not newer → return
the existing directory with no action; both with archive newer →
delete the directory recursively, recreate it and re-extract. -/
theorem resolver_follows_decision_table (stem sfx : String) (fs : ResolverFS) :
    resolve_root_dir stem sfx fs = resolver_decision_table stem sfx fs := by
  rcases fs with ⟨zE, dE, zM, dM⟩
  cases zE <;> cases dE <;>
    simp [resolve_root_dir, resolver_decision_table]

/-! ### Aggregate-mode Corpus Builder (`concat_legiscan_combined.py`
lines 34-47)

A CSV row is its list of cell strings; each successfully read
per-dataset file contributes its list of rows.  `pd.concat` flattens
the tables, `drop_duplicates()` keeps the first occurrence of every
row under full-row equality. -/

/-- pandas `drop_duplicates()`: keep the first occurrence of each row. -/
def drop_duplicates (rows : List (List String)) : List (List String) :=
  dedupFirst rows

/-- The module-level combine block: with no input tables it reports and
writes nothing; otherwise it concatenates all rows, removes exact
duplicates and writes the result, reporting the row counts before and
after deduplication. -/
def concat_legiscan_combined (tables : List (List (List String))) :
    Option (Nat × Nat × List (List String)) :=
  if tables.isEmpty then none
  else
    let combined := tables.flatten
    let deduped := drop_duplicates combined
    some (combined.length, deduped.length, deduped)

/-- Claim C8: aggregate-mode deduplication removes exactly the rows
that are duplicates of an earlier row under full-row equality: the
output row count never exceeds the input row count, and the reported
before-minus-after difference equals the number of full-row duplicate
rows removed. -/
theorem dedup_reports_duplicates_removed
    (tables : List (List (List String))) (before afterN : Nat)
    (outRows : List (List String))
    (h : concat_legiscan_combined tables = some (before, afterN, outRows)) :
    afterN ≤ before
    ∧ before - afterN = dupRowCount [] tables.flatten
    ∧ outRows.length = afterN := by
  unfold concat_legiscan_combined at h
  cases hne : tables.isEmpty with
  | true => rw [if_pos (by simp [hne])] at h; cases h
  | false =>
    rw [if_neg (by simp [hne])] at h
    injection h with h2
    injection h2 with hb h3
    injection h3 with ha ho
    have hkey := @length_dedupFirstAux_add_dupRowCount (List String) _
      tables.flatten []
    rw [← hb, ← ha, ← ho]
    refine ⟨?_, ?_, ?_⟩
    · simp only [drop_duplicates, dedupFirst] at *
      omega
    · simp only [drop_duplicates, dedupFirst] at *
      omega
    · rfl

/-- Witness for claim C8 on a concrete corpus with one full-row
duplicate: 3 rows in, 2 rows out, 1 duplicate reported. -/
theorem dedup_reports_duplicates_removed_witness :
    (2 ≤ 3)
    ∧ 3 - 2 = dupRowCount [] ([[["a"], ["b"]], [["a"]]] : List (List (List String))).flatten
    ∧ ([["a"], ["b"]] : List (List String)).length = 2 :=
  dedup_reports_duplicates_removed [[["a"], ["b"]], [["a"]]] 3 2 [["a"], ["b"]]
    (by decide)

/-! ### Per-dataset failure boundary (`main` in
`concat_with_join_legiscan.py` lines 257-266 and
`join_legiscan_csvs.py` lines 147-153)

The loop prints each dataset path, attempts the dataset inside
`try/except Exception`, reports the error on failure and continues
with the next dataset; row counts accumulate over successes only.
Per-dataset processing is abstracted as a function returning `Except`
(the exception message, or the row count written). -/

/-- One line of the run log. -/
inductive RunLog where
  | attempt (dir : String)
  | success (dir : String) (rows : Nat)
  | failure (dir : String) (msg : String)
deriving DecidableEq

/-- The directory a log line announces, if it is an attempt line. -/
def RunLog.attemptDir : RunLog → Option String
  | RunLog.attempt d => some d
  | _ => none

/-- The dataset loop of `main`: every discovered dataset directory is
announced and attempted in order; an exception is caught at the
per-dataset boundary, logged together with the announced path, and the
loop continues. -/
def dataset_loop (process : String → Except String Nat) :
    List String → List RunLog × Nat
  | [] => ([], 0)
  | d :: ds =>
    let rest := dataset_loop process ds
    match process d with
    | Except.ok n => (RunLog.attempt d :: RunLog.success d n :: rest.1, n + rest.2)
    | Except.error e => (RunLog.attempt d :: RunLog.failure d e :: rest.1, rest.2)

/-- Claim C9: a failure while aggregating any single dataset is caught
at the per-dataset boundary and reported with the offending path, and
never aborts the run: the attempted datasets are exactly the
discovered list, in order, whatever failures occur, and each failing
dataset leaves a failure log entry naming it. -/
theorem dataset_failures_do_not_abort (process : String → Except String Nat)
    (dirs : List String) :
    ((dataset_loop process dirs).1.filterMap RunLog.attemptDir = dirs)
    ∧ ∀ d ∈ dirs, ∀ msg, process d = Except.error msg →
        RunLog.failure d msg ∈ (dataset_loop process dirs).1 := by
  induction dirs with
  | nil => exact ⟨rfl, by intro d hd; cases hd⟩
  | cons d ds ih =>
    constructor
    · cases hp : process d <;>
        simp [dataset_loop, hp, List.filterMap_cons, RunLog.attemptDir, ih.1]
    · intro x hx msg hmsg
      rcases List.mem_cons.mp hx with hEq | hxs
      · subst hEq
        cases hp : process x with
        | ok n => rw [hp] at hmsg; cases hmsg
        | error e =>
          rw [hp] at hmsg
          injection hmsg with he
          subst he
          simp [dataset_loop, hp]
      · have hmem := ih.2 x hxs msg hmsg
        cases hp : process d <;>
          simp only [dataset_loop, hp] <;>
          exact List.mem_cons_of_mem _ (List.mem_cons_of_mem _ hmem)

/-- The process function of the C9 witness: dataset `bad` raises, the
others write one row. -/
def witnessProcess (d : String) : Except String Nat :=
  if d == ("bad") then Except.error ("boom") else Except.ok 1

/-- Witness for claim C9: with a failing middle dataset, all three
datasets are attempted in order and the failure is logged with its
path. -/
theorem dataset_failures_do_not_abort_witness :
    ((dataset_loop witnessProcess ["a", "bad", "c"]).1.filterMap RunLog.attemptDir
      = ["a", "bad", "c"])
    ∧ RunLog.failure ("bad") ("boom")
        ∈ (dataset_loop witnessProcess ["a", "bad", "c"]).1 :=
  ⟨(dataset_failures_do_not_abort witnessProcess ["a", "bad", "c"]).1,
    (dataset_failures_do_not_abort witnessProcess ["a", "bad", "c"]).2
      ("bad") (by decide) ("boom") rfl⟩

/-! ### Dataset Discovery (`discover_csv_dirs`, identical in
`concat_with_join_legiscan.py` lines 186-193 and
`join_legiscan_csvs.py` lines 74-81)

`root.rglob("*")` enumerates every path strictly below `root` (the
glob pattern has at least one component, so `root` itself is never
yielded); the filesystem is modelled as the listing the walk and the
`is_dir` / `is_file` tests consult.  `dirs.sort()` sorts `Path`
objects, which compare as their path strings. -/

/-- The six required table files. -/
def REQUIRED_FILES : List String :=
  ["bills.csv", "people.csv", "sponsors.csv", "history.csv",
    "documents.csv", "rollcalls.csv"]

/-- The directory and file paths present on the filesystem. -/
structure FsListing where
  dirPaths : List (List String)
  filePaths : List (List String)
deriving DecidableEq

/-- The path string of a component list (POSIX separator). -/
def pathString (comps : List String) : String :=
  String.intercalate ("/") comps

/-- Path order: compare path strings by their character lists (Python
compares `Path` objects by their strings, code point wise). -/
def pathLe (a b : List String) : Bool :=
  decide ((pathString a).data ≤ (pathString b).data)

/-- `discover_csv_dirs`: walk everything strictly below `root`, keep
the directories that directly contain all six required files as files,
and sort the result. -/
def discover_csv_dirs (fs : FsListing) (root : List String) : List (List String) :=
  insSort pathLe
    (fs.dirPaths.filter fun d =>
      root.isPrefixOf d && !(d == root)
        && REQUIRED_FILES.all (fun f => fs.filePaths.contains (d ++ [f])))

theorem pathLe_total (a b : List String) : pathLe a b = true ∨ pathLe b a = true := by
  simp only [pathLe, decide_eq_true_eq]
  exact le_total _ _

theorem pathLe_trans (a b c : List String) :
    pathLe a b = true → pathLe b c = true → pathLe a c = true := by
  simp only [pathLe, decide_eq_true_eq]
  exact le_trans

/-- Claim C6 (amended: quantified over the directories strictly below
the root — the root directory itself is never returned, even when it
directly contains all six required files): Dataset Discovery returns
exactly the directories strictly below the root that directly contain
all six required table files by exact name, sorted in lexicographic
path order. -/
theorem discover_csv_dirs_exact (fs : FsListing) (root : List String) :
    (∀ d, d ∈ discover_csv_dirs fs root ↔
      d ∈ fs.dirPaths ∧ root.isPrefixOf d = true ∧ d ≠ root
        ∧ ∀ f ∈ REQUIRED_FILES, (d ++ [f]) ∈ fs.filePaths)
    ∧ (discover_csv_dirs fs root).Pairwise (fun a b => pathLe a b = true) := by
  constructor
  · intro d
    simp only [discover_csv_dirs, mem_insSort, List.mem_filter,
      Bool.and_eq_true, Bool.not_eq_true', beq_eq_false_iff_ne, ne_eq,
      List.all_eq_true, List.elem_iff, decide_eq_true_eq]
    tauto
  · exact pairwise_insSort pathLe_total pathLe_trans _

/-- The listing of the claim C6 counterexample: a root directory `r`
that itself directly contains all six required tables and nothing
else. -/
def rootOnlyListing : FsListing :=
  FsListing.mk [["r"]]
    [["r", "bills.csv"], ["r", "people.csv"], ["r", "sponsors.csv"],
      ["r", "history.csv"], ["r", "documents.csv"], ["r", "rollcalls.csv"]]

/-- Claim C6, counterexample: run on a root directory that directly
contains all six required table files, Dataset Discovery returns the
empty list — the qualifying root directory is not returned, so the
claimed "returned if and only if all six files are present" fails at
the root. -/
theorem discovery_misses_qualifying_root :
    discover_csv_dirs rootOnlyListing ["r"] = []
    ∧ REQUIRED_FILES.all
        (fun f => rootOnlyListing.filePaths.contains (["r"] ++ [f])) = true := by
  refine ⟨by decide, by decide⟩

/-! ### Raw streaming Corpus Builder (`stream_concat`,
`concat_bills.py` lines 111-148)

An input file is its path (component list, anchor dropped) plus its
parsed CSV rows, the header first.  `sorted(root_dir.rglob(...))`
sorts by path string; per file the state code is
`letters_only(bills_path.parents[2].name)`. -/

/-- One discovered `CSV/bills.csv` input file. -/
structure BillsFile where
  comps : List String
  rows : List (List String)
deriving DecidableEq

/-- `bills_path.parents[2].name`: for a path of at least four
components, the fourth-from-last component; for exactly three, the
anchor, whose name is the empty string; for fewer, `parents[2]`
raises `IndexError`, which the per-file handler catches. -/
def parents2Name (comps : List String) : Option String :=
  if comps.length ≥ 4 then comps[comps.length - 4]?
  else if comps.length = 3 then some ("")
  else none

/-- Path order on input files. -/
def billsFileLe (a b : BillsFile) : Bool :=
  pathLe a.comps b.comps

/-- Processing of one input file inside the output loop: derive the
state (skipping the file when `parents[2]` raises), read the header
(skipping the file when the file is empty), write the header plus the
`state` column if no header has been written yet, then stream every
data row with the cleaned state code appended. -/
def streamStep (acc : List (List String) × Bool) (f : BillsFile) :
    List (List String) × Bool :=
  match parents2Name f.comps with
  | none => acc
  | some st =>
    match f.rows with
    | [] => acc
    | header :: dataRows =>
      let out := if acc.2 then acc.1 else acc.1 ++ [header ++ [("state")]]
      (out ++ dataRows.map (fun r => r ++ [letters_only st]), true)

/-- `stream_concat`: with no discovered input files, report and write
nothing; otherwise stream all files in sorted path order into one
output. -/
def stream_concat (files : List BillsFile) : Option (List (List String)) :=
  if files.isEmpty then none
  else some ((insSort billsFileLe files).foldl streamStep ([], false)).1

theorem streamStep_pair_true (out : List (List String)) (f : BillsFile)
    (st : String) (h0 : List String) (tl : List (List String))
    (hst : parents2Name f.comps = some st) (hr : f.rows = h0 :: tl) :
    streamStep (out, true) f
      = (out ++ tl.map (fun r => r ++ [letters_only st]), true) := by
  unfold streamStep
  rw [hst, hr]
  rfl

theorem streamStep_pair_false (out : List (List String)) (f : BillsFile)
    (st : String) (h0 : List String) (tl : List (List String))
    (hst : parents2Name f.comps = some st) (hr : f.rows = h0 :: tl) :
    streamStep (out, false) f
      = ((out ++ [h0 ++ [("state")]])
          ++ tl.map (fun r => r ++ [letters_only st]), true) := by
  unfold streamStep
  rw [hst, hr]
  rfl

theorem foldl_streamStep_after_header (fs : List BillsFile) :
    ∀ (out : List (List String)),
      (∀ f ∈ fs, f.rows ≠ [] ∧ (parents2Name f.comps).isSome = true) →
      fs.foldl streamStep (out, true)
        = (out ++ fs.flatMap (fun f => f.rows.tail.map (fun r =>
            r ++ [letters_only ((parents2Name f.comps).getD (""))])), true) := by
  induction fs with
  | nil => intro out _; simp
  | cons f fs ih =>
    intro out hf
    rcases hf f (List.mem_cons_self f fs) with ⟨hrows, hsome⟩
    rcases Option.isSome_iff_exists.mp hsome with ⟨st, hst⟩
    rcases hrne : f.rows with _ | ⟨h0, tl⟩
    · exact absurd hrne hrows
    · rw [List.foldl_cons, streamStep_pair_true out f st h0 tl hst hrne,
        ih (out ++ tl.map (fun r => r ++ [letters_only st]))
          (fun g hg => hf g (List.mem_cons_of_mem f hg))]
      simp only [List.flatMap_cons, hst, hrne, Option.getD_some, List.tail_cons,
        List.append_assoc]

theorem length_insertSorted (le : α → α → Bool) (a : α) (l : List α) :
    (insertSorted le a l).length = l.length + 1 := by
  induction l with
  | nil => rfl
  | cons b l ih =>
    simp only [insertSorted]
    split
    · rfl
    · simp [ih]

theorem length_insSort (le : α → α → Bool) (l : List α) :
    (insSort le l).length = l.length := by
  induction l with
  | nil => rfl
  | cons a l ih => simp [insSort, length_insertSorted, ih]

/-- Claim C7: raw streaming concatenation of input bills files with
identical headers writes exactly one header row — the first input
file's header with a `state` column appended — followed by all data
rows of every input file in sorted path order, each tagged with the
state code derived from its source file's path; with no input files it
reports this and writes nothing. -/
theorem stream_concat_one_header (files : List BillsFile) (hd : List String)
    (hne : files ≠ [])
    (hhd : ∀ f ∈ files, f.rows.head? = some hd)
    (hst : ∀ f ∈ files, (parents2Name f.comps).isSome = true) :
    stream_concat [] = none
    ∧ stream_concat files
      = some ((hd ++ [("state")]) ::
          (insSort billsFileLe files).flatMap (fun f =>
            f.rows.tail.map (fun r =>
              r ++ [letters_only ((parents2Name f.comps).getD (""))]))) := by
  refine ⟨rfl, ?_⟩
  have hmemhyp : ∀ f ∈ insSort billsFileLe files,
      f.rows ≠ [] ∧ (parents2Name f.comps).isSome = true := by
    intro f hf
    have hmem := mem_insSort.mp hf
    refine ⟨?_, hst f hmem⟩
    intro hnil
    have := hhd f hmem
    rw [hnil] at this
    cases this
  rcases hsrt : insSort billsFileLe files with _ | ⟨f0, rest⟩
  · exfalso
    apply hne
    have hlen := length_insSort billsFileLe files
    rw [hsrt] at hlen
    exact List.length_eq_zero.mp hlen.symm
  · have hf0 : f0 ∈ insSort billsFileLe files := by
      rw [hsrt]; exact List.mem_cons_self f0 rest
    rcases hmemhyp f0 hf0 with ⟨hrows0, hsome0⟩
    rcases Option.isSome_iff_exists.mp hsome0 with ⟨st0, hst0⟩
    have hhd0 := hhd f0 (mem_insSort.mp hf0)
    rcases hr0 : f0.rows with _ | ⟨h0, tl0⟩
    · exact absurd hr0 hrows0
    · have hh0 : h0 = hd := by
        rw [hr0] at hhd0
        simp only [List.head?_cons, Option.some.injEq] at hhd0
        exact hhd0
      unfold stream_concat
      rw [if_neg (by simpa using hne), hsrt, List.foldl_cons,
        streamStep_pair_false [] f0 st0 h0 tl0 hst0 hr0,
        foldl_streamStep_after_header rest
          (([] ++ [h0 ++ [("state")]]) ++ tl0.map (fun r => r ++ [letters_only st0]))
          (fun g hg => hmemhyp g (by rw [hsrt]; exact List.mem_cons_of_mem f0 hg))]
      simp only [List.flatMap_cons, hst0, hr0, Option.getD_some, List.tail_cons,
        hh0, List.nil_append, List.singleton_append, List.append_assoc, List.cons_append]

/-- Witness for claim C7 on two concrete input files with the shared
header `["h"]`, discovered out of path order. -/
theorem stream_concat_one_header_witness :
    stream_concat
      [BillsFile.mk ["b", "s", "CSV", "bills.csv"] [["h"], ["x"]],
        BillsFile.mk ["a", "s", "CSV", "bills.csv"] [["h"], ["y"]]]
      = some [["h", "state"], ["y", "a"], ["x", "b"]] :=
  ((stream_concat_one_header
      [BillsFile.mk ["b", "s", "CSV", "bills.csv"] [["h"], ["x"]],
        BillsFile.mk ["a", "s", "CSV", "bills.csv"] [["h"], ["y"]]]
      ["h"] (by decide) (by decide) (by decide)).2).trans
    (by decide)

/-! ### Per-Bill Aggregator (`concat_with_join_legiscan.py` lines
122-233; the `join_legiscan_csvs.py` variant differs only in the
state-code derivation, settled with claim C5)

Row types carry the columns the aggregator touches; the remaining bill
columns are opaque.  `bill_id` and `people_id` are identifiers
compared for equality only; a value pandas may hold as `NaN` is an
`Option`.  The output row is the CSV-level view of the written frame:
`to_csv` serializes `NaN` as the empty cell, and the six count columns
are filled with 0 and coerced to integers exactly as the code does. -/

structure SponsorRow where
  bill_id : String
  people_id : String
  position : Int
deriving DecidableEq

structure PersonRow where
  people_id : String
  name : Option String
  party : Option String
deriving DecidableEq

structure HistoryRow where
  bill_id : String
  date : String
  sequence : Int
  action : Option String
deriving DecidableEq

structure DocumentRow where
  bill_id : String
  document_type : Option String
  url : Option String
deriving DecidableEq

structure RollcallRow where
  bill_id : String
  roll_call_id : Option String
  yea : Int
  nay : Int
deriving DecidableEq

structure BillRow where
  bill_id : String
  rest : List String
deriving DecidableEq

/-- One row of `sponsors.merge(people[["people_id", "name", "party"]],
on="people_id", how="left")`. -/
structure MergedSponsorRow where
  bill_id : String
  people_id : String
  position : Int
  name : Option String
  party : Option String
deriving DecidableEq

/-- pandas left merge on `people_id`: every matching person row
produces one output row; no match leaves null name and party. -/
def mergeSponsorsPeople (sponsors : List SponsorRow) (people : List PersonRow) :
    List MergedSponsorRow :=
  sponsors.flatMap fun s =>
    match people.filter (fun p => p.people_id == s.people_id) with
    | [] => [MergedSponsorRow.mk s.bill_id s.people_id s.position none none]
    | p :: ps => (p :: ps).map fun q =>
        MergedSponsorRow.mk s.bill_id s.people_id s.position q.name q.party

/-- `(bill_id, position)` lexicographic sort order on merged rows. -/
def mergedSponsorLe (a b : MergedSponsorRow) : Bool :=
  if a.bill_id == b.bill_id then decide (a.position ≤ b.position)
  else decide (a.bill_id.data ≤ b.bill_id.data)

/-- `(bill_id, position)` lexicographic sort order on sponsorship rows. -/
def sponsorRowLe (a b : SponsorRow) : Bool :=
  if a.bill_id == b.bill_id then decide (a.position ≤ b.position)
  else decide (a.bill_id.data ≤ b.bill_id.data)

/-- The literal `" | "` join. -/
def joinPipe (parts : List String) : String :=
  String.intercalate (" | ") parts

structure SponsorAgg where
  bill_id : String
  sponsor_names : String
  sponsor_parties : String
  primary_sponsor : Option String
  sponsor_count : Int
deriving DecidableEq

/-- The `_agg` body of `aggregate_sponsors` for the group of one
`bill_id`: the group is the rows of the sorted merged frame with that
key, in sorted order; joined non-null names and parties, the name of
the first `position == 1` row (the empty string when no such row
exists; the value stays null when that row's name is null), and the
group size. -/
def mkSponsorAgg (sortedMerged : List MergedSponsorRow) (k : String) : SponsorAgg :=
  let group := sortedMerged.filter (fun r => r.bill_id == k)
  SponsorAgg.mk k
    (joinPipe (group.filterMap (fun r => r.name)))
    (joinPipe (group.filterMap (fun r => r.party)))
    (match (group.filter (fun r => r.position == 1)).head? with
      | some r => r.name
      | none => some (""))
    (group.length)

/-- The merged frame after `sort_values(["bill_id", "position"])`. -/
def sortedMergedSponsors (sponsors : List SponsorRow) (people : List PersonRow) :
    List MergedSponsorRow :=
  insSort mergedSponsorLe (mergeSponsorsPeople sponsors people)

/-- `aggregate_sponsors`: merge with the person table, sort by
`(bill_id, position)`, group by `bill_id` in order of first appearance
and fold each group. -/
def aggregate_sponsors (sponsors : List SponsorRow) (people : List PersonRow) :
    List SponsorAgg :=
  (dedupFirst ((sortedMergedSponsors sponsors people).map (fun r => r.bill_id))).map
    (mkSponsorAgg (sortedMergedSponsors sponsors people))

/-- `(bill_id, date, sequence)` lexicographic sort order. -/
def historyLe (a b : HistoryRow) : Bool :=
  if a.bill_id == b.bill_id then
    if a.date == b.date then decide (a.sequence ≤ b.sequence)
    else decide (a.date.data ≤ b.date.data)
  else decide (a.bill_id.data ≤ b.bill_id.data)

structure HistoryAgg where
  bill_id : String
  action_count : Int
  last_history_action : Option String
deriving DecidableEq

/-- The `_agg` body of `aggregate_history` for one `bill_id`: the
group size and the `action` of the last row of the sorted group. -/
def mkHistoryAgg (sortedHistory : List HistoryRow) (k : String) : HistoryAgg :=
  let group := sortedHistory.filter (fun r => r.bill_id == k)
  HistoryAgg.mk k (group.length)
    (match group.getLast? with
      | some r => r.action
      | none => none)

/-- The history frame after `sort_values(["bill_id", "date", "sequence"])`. -/
def sortedHistoryRows (history : List HistoryRow) : List HistoryRow :=
  insSort historyLe history

/-- `aggregate_history`. -/
def aggregate_history (history : List HistoryRow) : List HistoryAgg :=
  (dedupFirst ((sortedHistoryRows history).map (fun r => r.bill_id))).map
    (mkHistoryAgg (sortedHistoryRows history))

structure DocumentAgg where
  bill_id : String
  document_count : Int
  document_types : String
  document_urls : String
deriving DecidableEq

/-- The `_agg` body of `aggregate_documents` for one `bill_id`: group
size, the distinct non-null document types in first-seen order, and
all non-null urls (duplicates retained). -/
def mkDocumentAgg (documents : List DocumentRow) (k : String) : DocumentAgg :=
  let group := documents.filter (fun r => r.bill_id == k)
  DocumentAgg.mk k (group.length)
    (joinPipe (dedupFirst (group.filterMap (fun r => r.document_type))))
    (joinPipe (group.filterMap (fun r => r.url)))

/-- `aggregate_documents` (no sort). -/
def aggregate_documents (documents : List DocumentRow) : List DocumentAgg :=
  (dedupFirst (documents.map (fun r => r.bill_id))).map (mkDocumentAgg documents)

structure RollcallAgg where
  bill_id : String
  rollcall_count : Int
  total_yea : Int
  total_nay : Int
deriving DecidableEq

/-- The `.agg` body of `aggregate_rollcalls` for one `bill_id`:
`count` counts the non-null `roll_call_id` values of the group, the
totals sum `yea` and `nay`. -/
def mkRollcallAgg (rollcalls : List RollcallRow) (k : String) : RollcallAgg :=
  let group := rollcalls.filter (fun r => r.bill_id == k)
  RollcallAgg.mk k
    ((group.filterMap (fun r => r.roll_call_id)).length)
    ((group.map (fun r => r.yea)).sum)
    ((group.map (fun r => r.nay)).sum)

/-- `aggregate_rollcalls` (no sort). -/
def aggregate_rollcalls (rollcalls : List RollcallRow) : List RollcallAgg :=
  (dedupFirst (rollcalls.map (fun r => r.bill_id))).map (mkRollcallAgg rollcalls)

/-- pandas left merge on a key column: every matching right row
produces one output row, a missing match yields one row with a null
right side. -/
def leftMerge {α β : Type} (key : α → String) (tkey : β → String)
    (left : List α) (table : List β) : List (α × Option β) :=
  left.flatMap fun r =>
    match table.filter (fun t => tkey t == key r) with
    | [] => [(r, none)]
    | m :: ms => (m :: ms).map fun x => (r, some x)

/-- One output row at the CSV level: `state` is inserted as the first
column, the bill columns follow, then the aggregate columns; string
aggregate cells absent after the left merges serialize as empty cells,
and the six count columns are `fillna(0).astype(int)`. -/
structure OutRow where
  state : String
  bill_id : String
  bill_rest : List String
  sponsor_names : String
  sponsor_parties : String
  primary_sponsor : String
  sponsor_count : Int
  action_count : Int
  last_history_action : String
  document_count : Int
  document_types : String
  document_urls : String
  rollcall_count : Int
  total_yea : Int
  total_nay : Int
deriving DecidableEq

/-- Assemble one output row from a bill row and its four optional
aggregate rows. -/
def mkOutRow (st : String) (b : BillRow) (sA : Option SponsorAgg)
    (hA : Option HistoryAgg) (dA : Option DocumentAgg)
    (rA : Option RollcallAgg) : OutRow :=
  OutRow.mk st b.bill_id b.rest
    ((sA.map (fun a => a.sponsor_names)).getD (""))
    ((sA.map (fun a => a.sponsor_parties)).getD (""))
    ((sA.bind (fun a => a.primary_sponsor)).getD (""))
    ((sA.map (fun a => a.sponsor_count)).getD 0)
    ((hA.map (fun a => a.action_count)).getD 0)
    ((hA.bind (fun a => a.last_history_action)).getD (""))
    ((dA.map (fun a => a.document_count)).getD 0)
    ((dA.map (fun a => a.document_types)).getD (""))
    ((dA.map (fun a => a.document_urls)).getD (""))
    ((rA.map (fun a => a.rollcall_count)).getD 0)
    ((rA.map (fun a => a.total_yea)).getD 0)
    ((rA.map (fun a => a.total_nay)).getD 0)

/-- `process_csv_dir`: compute the four aggregates, left-merge each
onto the bill table on `bill_id`, insert the state code first, fill
the count columns with 0 and coerce to integers. -/
def process_csv_dir (stateCode : String) (bills : List BillRow)
    (people : List PersonRow) (sponsors : List SponsorRow)
    (history : List HistoryRow) (documents : List DocumentRow)
    (rollcalls : List RollcallRow) : List OutRow :=
  let sAgg := aggregate_sponsors sponsors people
  let hAgg := aggregate_history history
  let dAgg := aggregate_documents documents
  let rAgg := aggregate_rollcalls rollcalls
  let m1 := leftMerge (fun b => b.bill_id) (fun a => a.bill_id) bills sAgg
  let m2 := leftMerge (fun x => x.1.bill_id) (fun a => a.bill_id) m1 hAgg
  let m3 := leftMerge (fun x => x.1.1.bill_id) (fun a => a.bill_id) m2 dAgg
  let m4 := leftMerge (fun x => x.1.1.1.bill_id) (fun a => a.bill_id) m3 rAgg
  m4.map fun x => mkOutRow stateCode x.1.1.1.1 x.1.1.1.2 x.1.1.2 x.1.2 x.2

/-- State code of `concat_with_join_legiscan.py`:
`letters_only(csv_dir.parent.parent.name)`. -/
def state_code_combined (parentParentName : String) : String :=
  letters_only parentParentName

/-- State code of `join_legiscan_csvs.py` `process_csv_dir`:
`csv_dir.parent.parent.name`, used as is. -/
def state_code_scripts (parentParentName : String) : String :=
  parentParentName

/-! #### Lookup form of the aggregates and of the left merges -/

/-- The aggregate row the sponsor left merge finds for key `k`. -/
def sponsorAggFor (sponsors : List SponsorRow) (people : List PersonRow)
    (k : String) : Option SponsorAgg :=
  if k ∈ (sortedMergedSponsors sponsors people).map (fun r => r.bill_id)
  then some (mkSponsorAgg (sortedMergedSponsors sponsors people) k) else none

/-- The aggregate row the history left merge finds for key `k`. -/
def historyAggFor (history : List HistoryRow) (k : String) : Option HistoryAgg :=
  if k ∈ (sortedHistoryRows history).map (fun r => r.bill_id)
  then some (mkHistoryAgg (sortedHistoryRows history) k) else none

/-- The aggregate row the document left merge finds for key `k`. -/
def documentAggFor (documents : List DocumentRow) (k : String) : Option DocumentAgg :=
  if k ∈ documents.map (fun r => r.bill_id)
  then some (mkDocumentAgg documents k) else none

/-- The aggregate row the roll-call left merge finds for key `k`. -/
def rollcallAggFor (rollcalls : List RollcallRow) (k : String) : Option RollcallAgg :=
  if k ∈ rollcalls.map (fun r => r.bill_id)
  then some (mkRollcallAgg rollcalls k) else none

theorem map_key_of_mk {β : Type} {mk : String → β} {keyOf : β → String}
    (hmk : ∀ k, keyOf (mk k) = k) (keys : List String) :
    (keys.map mk).map keyOf = keys := by
  rw [List.map_map]
  have hcomp : (keyOf ∘ mk) = id := funext hmk
  rw [hcomp, List.map_id]

theorem find?_aggregate_sponsors (sponsors : List SponsorRow)
    (people : List PersonRow) (k : String) :
    (aggregate_sponsors sponsors people).find? (fun a => a.bill_id == k)
      = sponsorAggFor sponsors people k := by
  unfold aggregate_sponsors sponsorAggFor
  rw [find?_map_key (mkSponsorAgg (sortedMergedSponsors sponsors people))
    (fun a => a.bill_id) (fun j => rfl) _ k]
  by_cases hk : k ∈ (sortedMergedSponsors sponsors people).map (fun r => r.bill_id)
  · rw [if_pos (mem_dedupFirst.mpr hk), if_pos hk]
  · rw [if_neg (fun hc => hk (mem_dedupFirst.mp hc)), if_neg hk]

theorem find?_aggregate_history (history : List HistoryRow) (k : String) :
    (aggregate_history history).find? (fun a => a.bill_id == k)
      = historyAggFor history k := by
  unfold aggregate_history historyAggFor
  rw [find?_map_key (mkHistoryAgg (sortedHistoryRows history))
    (fun a => a.bill_id) (fun j => rfl) _ k]
  by_cases hk : k ∈ (sortedHistoryRows history).map (fun r => r.bill_id)
  · rw [if_pos (mem_dedupFirst.mpr hk), if_pos hk]
  · rw [if_neg (fun hc => hk (mem_dedupFirst.mp hc)), if_neg hk]

theorem find?_aggregate_documents (documents : List DocumentRow) (k : String) :
    (aggregate_documents documents).find? (fun a => a.bill_id == k)
      = documentAggFor documents k := by
  unfold aggregate_documents documentAggFor
  rw [find?_map_key (mkDocumentAgg documents)
    (fun a => a.bill_id) (fun j => rfl) _ k]
  by_cases hk : k ∈ documents.map (fun r => r.bill_id)
  · rw [if_pos (mem_dedupFirst.mpr hk), if_pos hk]
  · rw [if_neg (fun hc => hk (mem_dedupFirst.mp hc)), if_neg hk]

theorem find?_aggregate_rollcalls (rollcalls : List RollcallRow) (k : String) :
    (aggregate_rollcalls rollcalls).find? (fun a => a.bill_id == k)
      = rollcallAggFor rollcalls k := by
  unfold aggregate_rollcalls rollcallAggFor
  rw [find?_map_key (mkRollcallAgg rollcalls)
    (fun a => a.bill_id) (fun j => rfl) _ k]
  by_cases hk : k ∈ rollcalls.map (fun r => r.bill_id)
  · rw [if_pos (mem_dedupFirst.mpr hk), if_pos hk]
  · rw [if_neg (fun hc => hk (mem_dedupFirst.mp hc)), if_neg hk]

theorem leftMerge_eq_map_find {α β : Type} (key : α → String) (tkey : β → String)
    (left : List α) (table : List β) (h : (table.map tkey).Nodup) :
    leftMerge key tkey left table
      = left.map fun r => (r, table.find? (fun t => tkey t == key r)) := by
  induction left with
  | nil => rfl
  | cons r rs ih =>
    simp only [leftMerge, List.flatMap_cons, List.map_cons] at ih ⊢
    rw [filter_key_eq_find_toList tkey (key r) h]
    cases hf : table.find? (fun t => tkey t == key r) with
    | none => rw [ih]; rfl
    | some m => rw [ih]; rfl

theorem nodup_keys_aggregate_sponsors (sponsors : List SponsorRow)
    (people : List PersonRow) :
    ((aggregate_sponsors sponsors people).map (fun a => a.bill_id)).Nodup := by
  unfold aggregate_sponsors
  rw [map_key_of_mk (fun j => rfl)]
  exact nodup_dedupFirst

theorem nodup_keys_aggregate_history (history : List HistoryRow) :
    ((aggregate_history history).map (fun a => a.bill_id)).Nodup := by
  unfold aggregate_history
  rw [map_key_of_mk (fun j => rfl)]
  exact nodup_dedupFirst

theorem nodup_keys_aggregate_documents (documents : List DocumentRow) :
    ((aggregate_documents documents).map (fun a => a.bill_id)).Nodup := by
  unfold aggregate_documents
  rw [map_key_of_mk (fun j => rfl)]
  exact nodup_dedupFirst

theorem nodup_keys_aggregate_rollcalls (rollcalls : List RollcallRow) :
    ((aggregate_rollcalls rollcalls).map (fun a => a.bill_id)).Nodup := by
  unfold aggregate_rollcalls
  rw [map_key_of_mk (fun j => rfl)]
  exact nodup_dedupFirst

theorem process_csv_dir_eq (st : String) (bills : List BillRow)
    (people : List PersonRow) (sponsors : List SponsorRow)
    (history : List HistoryRow) (documents : List DocumentRow)
    (rollcalls : List RollcallRow) :
    process_csv_dir st bills people sponsors history documents rollcalls
      = bills.map (fun b => mkOutRow st b
          (sponsorAggFor sponsors people b.bill_id)
          (historyAggFor history b.bill_id)
          (documentAggFor documents b.bill_id)
          (rollcallAggFor rollcalls b.bill_id)) := by
  simp only [process_csv_dir]
  rw [leftMerge_eq_map_find _ _ bills _ (nodup_keys_aggregate_sponsors sponsors people)]
  rw [leftMerge_eq_map_find _ _ _ _ (nodup_keys_aggregate_history history)]
  rw [leftMerge_eq_map_find _ _ _ _ (nodup_keys_aggregate_documents documents)]
  rw [leftMerge_eq_map_find _ _ _ _ (nodup_keys_aggregate_rollcalls rollcalls)]
  simp only [List.map_map, Function.comp, find?_aggregate_sponsors,
    find?_aggregate_history, find?_aggregate_documents, find?_aggregate_rollcalls]
  rfl

/-! #### The merged sponsor frame when `people_id` is a proper key -/

/-- The single merged row a sponsorship row produces when `people_id`
identifies at most one person row. -/
def mergeOneSponsor (people : List PersonRow) (s : SponsorRow) : MergedSponsorRow :=
  match people.find? (fun p => p.people_id == s.people_id) with
  | none => MergedSponsorRow.mk s.bill_id s.people_id s.position none none
  | some p => MergedSponsorRow.mk s.bill_id s.people_id s.position p.name p.party

theorem mergeOneSponsor_bill_id (people : List PersonRow) (s : SponsorRow) :
    (mergeOneSponsor people s).bill_id = s.bill_id := by
  unfold mergeOneSponsor
  cases people.find? (fun p => p.people_id == s.people_id) <;> rfl

theorem mergeOneSponsor_position (people : List PersonRow) (s : SponsorRow) :
    (mergeOneSponsor people s).position = s.position := by
  unfold mergeOneSponsor
  cases people.find? (fun p => p.people_id == s.people_id) <;> rfl

theorem mergeOneSponsor_name (people : List PersonRow) (s : SponsorRow) :
    (mergeOneSponsor people s).name
      = (people.find? (fun p => p.people_id == s.people_id)).bind (fun p => p.name) := by
  unfold mergeOneSponsor
  cases people.find? (fun p => p.people_id == s.people_id) <;> rfl

theorem mergeSponsorsPeople_eq_map (sponsors : List SponsorRow)
    (people : List PersonRow)
    (hp : (people.map (fun p => p.people_id)).Nodup) :
    mergeSponsorsPeople sponsors people = sponsors.map (mergeOneSponsor people) := by
  induction sponsors with
  | nil => rfl
  | cons s ss ih =>
    simp only [mergeSponsorsPeople, List.flatMap_cons, List.map_cons] at ih ⊢
    have hfk := filter_key_eq_find_toList (fun p : PersonRow => p.people_id)
      s.people_id (l := people) hp
    rw [hfk]
    cases hf : people.find? (fun p => p.people_id == s.people_id) with
    | none =>
      rw [ih]
      unfold mergeOneSponsor
      rw [hf]
      rfl
    | some p =>
      rw [ih]
      unfold mergeOneSponsor
      rw [hf]
      rfl

theorem mergedSponsorLe_map (people : List PersonRow) (a b : SponsorRow) :
    mergedSponsorLe (mergeOneSponsor people a) (mergeOneSponsor people b)
      = sponsorRowLe a b := by
  unfold mergedSponsorLe sponsorRowLe
  rw [mergeOneSponsor_bill_id, mergeOneSponsor_bill_id,
    mergeOneSponsor_position, mergeOneSponsor_position]

theorem sortedMergedSponsors_eq_map (sponsors : List SponsorRow)
    (people : List PersonRow)
    (hp : (people.map (fun p => p.people_id)).Nodup) :
    sortedMergedSponsors sponsors people
      = (insSort sponsorRowLe sponsors).map (mergeOneSponsor people) := by
  unfold sortedMergedSponsors
  rw [mergeSponsorsPeople_eq_map sponsors people hp,
    insSort_map (mergeOneSponsor people) sponsorRowLe mergedSponsorLe
      (mergedSponsorLe_map people) sponsors]

/-! #### Count columns against the child tables -/

theorem length_filter_insSort (p : α → Bool) (le : α → α → Bool) (l : List α) :
    ((insSort le l).filter p).length = (l.filter p).length := by
  rw [← List.countP_eq_length_filter, ← List.countP_eq_length_filter, countP_insSort]

theorem filter_key_map_mergeOne (people : List PersonRow) (l : List SponsorRow)
    (k : String) :
    ((l.map (mergeOneSponsor people)).filter (fun r => r.bill_id == k))
      = (l.filter (fun s => s.bill_id == k)).map (mergeOneSponsor people) := by
  rw [List.filter_map]
  congr 1
  apply List.filter_congr
  intro s _
  simp [Function.comp, mergeOneSponsor_bill_id]

theorem sponsorAggFor_count (sponsors : List SponsorRow) (people : List PersonRow)
    (k : String) (hp : (people.map (fun p => p.people_id)).Nodup) :
    ((sponsorAggFor sponsors people k).map (fun a => a.sponsor_count)).getD 0
      = ((sponsors.filter (fun s => s.bill_id == k)).length : Int) := by
  unfold sponsorAggFor
  by_cases hk : k ∈ (sortedMergedSponsors sponsors people).map (fun r => r.bill_id)
  · rw [if_pos hk]
    show ((mkSponsorAgg (sortedMergedSponsors sponsors people) k).sponsor_count) = _
    unfold mkSponsorAgg
    dsimp only
    rw [sortedMergedSponsors_eq_map sponsors people hp,
      filter_key_map_mergeOne people (insSort sponsorRowLe sponsors) k,
      List.length_map, length_filter_insSort]
  · rw [if_neg hk]
    have hnf : sponsors.filter (fun s => s.bill_id == k) = [] := by
      apply filter_key_eq_nil
      intro hc
      apply hk
      rw [sortedMergedSponsors_eq_map sponsors people hp]
      rcases List.mem_map.mp hc with ⟨s, hs, hsk⟩
      refine List.mem_map.mpr ⟨mergeOneSponsor people s, ?_, ?_⟩
      · exact List.mem_map_of_mem _ (mem_insSort.mpr hs)
      · rw [mergeOneSponsor_bill_id]
        exact hsk
    simp [hnf]

theorem historyAggFor_count (history : List HistoryRow) (k : String) :
    ((historyAggFor history k).map (fun a => a.action_count)).getD 0
      = ((history.filter (fun r => r.bill_id == k)).length : Int) := by
  unfold historyAggFor
  by_cases hk : k ∈ (sortedHistoryRows history).map (fun r => r.bill_id)
  · rw [if_pos hk]
    show ((mkHistoryAgg (sortedHistoryRows history) k).action_count) = _
    unfold mkHistoryAgg sortedHistoryRows
    dsimp only
    rw [length_filter_insSort]
  · rw [if_neg hk]
    have hnf : history.filter (fun r => r.bill_id == k) = [] := by
      apply filter_key_eq_nil
      intro hc
      apply hk
      unfold sortedHistoryRows
      rcases List.mem_map.mp hc with ⟨r, hr, hrk⟩
      exact List.mem_map.mpr ⟨r, mem_insSort.mpr hr, hrk⟩
    simp [hnf]

theorem documentAggFor_count (documents : List DocumentRow) (k : String) :
    ((documentAggFor documents k).map (fun a => a.document_count)).getD 0
      = ((documents.filter (fun r => r.bill_id == k)).length : Int) := by
  unfold documentAggFor
  by_cases hk : k ∈ documents.map (fun r => r.bill_id)
  · rw [if_pos hk]
    rfl
  · rw [if_neg hk]
    simp [filter_key_eq_nil hk]

theorem rollcallAggFor_count (rollcalls : List RollcallRow) (k : String)
    (hrc : ∀ r ∈ rollcalls, r.roll_call_id.isSome = true) :
    ((rollcallAggFor rollcalls k).map (fun a => a.rollcall_count)).getD 0
      = ((rollcalls.filter (fun r => r.bill_id == k)).length : Int) := by
  unfold rollcallAggFor
  by_cases hk : k ∈ rollcalls.map (fun r => r.bill_id)
  · rw [if_pos hk]
    show ((mkRollcallAgg rollcalls k).rollcall_count) = _
    unfold mkRollcallAgg
    dsimp only
    have hlen := length_filterMap_of_isSome (fun r : RollcallRow => r.roll_call_id)
      (l := rollcalls.filter (fun r => r.bill_id == k))
      (fun x hx => hrc x (List.mem_filter.mp hx).1)
    rw [hlen]
  · rw [if_neg hk]
    simp [filter_key_eq_nil hk]

theorem rollcallAggFor_yea (rollcalls : List RollcallRow) (k : String) :
    ((rollcallAggFor rollcalls k).map (fun a => a.total_yea)).getD 0
      = ((rollcalls.filter (fun r => r.bill_id == k)).map (fun r => r.yea)).sum := by
  unfold rollcallAggFor
  by_cases hk : k ∈ rollcalls.map (fun r => r.bill_id)
  · rw [if_pos hk]
    rfl
  · rw [if_neg hk]
    simp [filter_key_eq_nil hk]

theorem rollcallAggFor_nay (rollcalls : List RollcallRow) (k : String) :
    ((rollcallAggFor rollcalls k).map (fun a => a.total_nay)).getD 0
      = ((rollcalls.filter (fun r => r.bill_id == k)).map (fun r => r.nay)).sum := by
  unfold rollcallAggFor
  by_cases hk : k ∈ rollcalls.map (fun r => r.bill_id)
  · rw [if_pos hk]
    rfl
  · rw [if_neg hk]
    simp [filter_key_eq_nil hk]

/-- Claim C3: for every bill row in the aggregated output,
`sponsor_count`, `action_count`, `document_count` and `rollcall_count`
equal the number of child rows referencing that bill in the
sponsorship, history, document and roll-call tables, and `total_yea`
and `total_nay` equal the sums of `yea` and `nay` over that bill's
roll calls; all six columns are integers, equal to 0 rather than null
for a bill with no matching child rows (the empty filter gives count
0 and sum 0).  The person table is assumed key-proper on `people_id`
and roll-call rows carry their `roll_call_id`, as the data model
requires. -/
theorem aggregate_counts_match_children (st : String) (bills : List BillRow)
    (people : List PersonRow) (sponsors : List SponsorRow)
    (history : List HistoryRow) (documents : List DocumentRow)
    (rollcalls : List RollcallRow)
    (hp : (people.map (fun p => p.people_id)).Nodup)
    (hrc : ∀ r ∈ rollcalls, r.roll_call_id.isSome = true) :
    ∀ outRow ∈ process_csv_dir st bills people sponsors history documents rollcalls,
      outRow.sponsor_count
          = ((sponsors.filter (fun s => s.bill_id == outRow.bill_id)).length : Int)
      ∧ outRow.action_count
          = ((history.filter (fun r => r.bill_id == outRow.bill_id)).length : Int)
      ∧ outRow.document_count
          = ((documents.filter (fun r => r.bill_id == outRow.bill_id)).length : Int)
      ∧ outRow.rollcall_count
          = ((rollcalls.filter (fun r => r.bill_id == outRow.bill_id)).length : Int)
      ∧ outRow.total_yea
          = ((rollcalls.filter (fun r => r.bill_id == outRow.bill_id)).map
              (fun r => r.yea)).sum
      ∧ outRow.total_nay
          = ((rollcalls.filter (fun r => r.bill_id == outRow.bill_id)).map
              (fun r => r.nay)).sum := by
  intro outRow hout
  rw [process_csv_dir_eq] at hout
  rcases List.mem_map.mp hout with ⟨b, hb, hEq⟩
  subst hEq
  refine ⟨?_, ?_, ?_, ?_, ?_, ?_⟩
  · exact sponsorAggFor_count sponsors people b.bill_id hp
  · exact historyAggFor_count history b.bill_id
  · exact documentAggFor_count documents b.bill_id
  · exact rollcallAggFor_count rollcalls b.bill_id hrc
  · exact rollcallAggFor_yea rollcalls b.bill_id
  · exact rollcallAggFor_nay rollcalls b.bill_id

/-! #### Concrete dataset for the aggregator witnesses: bill `A` has
sponsorships at positions 1 and 2, one history row, one document and
one roll call with 5 yea / 3 nay; bill `B` has one position-2
sponsorship and no other children. -/

def billsW : List BillRow := [BillRow.mk ("A") [], BillRow.mk ("B") []]

def peopleW : List PersonRow := [PersonRow.mk ("p1") (some ("Ann")) (some ("D"))]

def sponsorsW : List SponsorRow :=
  [SponsorRow.mk ("A") ("p1") 1, SponsorRow.mk ("A") ("p2") 2,
    SponsorRow.mk ("B") ("p2") 2]

def historyW : List HistoryRow :=
  [HistoryRow.mk ("A") ("2021-01-01") 1 (some ("Intro"))]

def documentsW : List DocumentRow :=
  [DocumentRow.mk ("A") (some ("t")) (some ("u"))]

def rollcallsW : List RollcallRow :=
  [RollcallRow.mk ("A") (some ("r1")) 5 3]

/-- The output row the aggregator produces for bill `A` of the witness
dataset. -/
def outAW : OutRow :=
  mkOutRow ("KS") (BillRow.mk ("A") [])
    (sponsorAggFor sponsorsW peopleW ("A"))
    (historyAggFor historyW ("A"))
    (documentAggFor documentsW ("A"))
    (rollcallAggFor rollcallsW ("A"))

/-- Witness for claim C3 at the concrete dataset, on bill `A`'s output
row. -/
theorem aggregate_counts_match_children_witness :
    outAW.sponsor_count
        = ((sponsorsW.filter (fun s => s.bill_id == outAW.bill_id)).length : Int)
    ∧ outAW.action_count
        = ((historyW.filter (fun r => r.bill_id == outAW.bill_id)).length : Int)
    ∧ outAW.document_count
        = ((documentsW.filter (fun r => r.bill_id == outAW.bill_id)).length : Int)
    ∧ outAW.rollcall_count
        = ((rollcallsW.filter (fun r => r.bill_id == outAW.bill_id)).length : Int)
    ∧ outAW.total_yea
        = ((rollcallsW.filter (fun r => r.bill_id == outAW.bill_id)).map
            (fun r => r.yea)).sum
    ∧ outAW.total_nay
        = ((rollcallsW.filter (fun r => r.bill_id == outAW.bill_id)).map
            (fun r => r.nay)).sum :=
  aggregate_counts_match_children ("KS") billsW peopleW sponsorsW historyW
    documentsW rollcallsW (by decide) (by decide) outAW (by decide)

/-! #### The primary sponsor column -/

theorem find?_filter_and (p q : α → Bool) :
    ∀ (l : List α), (l.filter p).find? q = l.find? (fun a => p a && q a) := by
  intro l
  induction l with
  | nil => rfl
  | cons x xs ih =>
    cases hp : p x with
    | false => simp [List.filter_cons, hp, List.find?_cons, ih]
    | true =>
      cases hq : q x with
      | false => simp [List.filter_cons, hp, List.find?_cons, hq, ih]
      | true => simp [List.filter_cons, hp, List.find?_cons, hq]

/-- The claim-side primary sponsor: the name joined from the person
table on `people_id` for the first sponsorship row with
`position == 1` in `(bill_id, position)` sort order, or the empty
string when no such row exists. -/
def primary_sponsor_spec (sponsors : List SponsorRow) (people : List PersonRow)
    (k : String) : String :=
  match (insSort sponsorRowLe sponsors).find?
      (fun s => s.bill_id == k && s.position == 1) with
  | some s => ((people.find? (fun p => p.people_id == s.people_id)).bind
      (fun p => p.name)).getD ("")
  | none => ""

theorem sponsorAggFor_primary (sponsors : List SponsorRow)
    (people : List PersonRow) (k : String)
    (hp : (people.map (fun p => p.people_id)).Nodup) :
    ((sponsorAggFor sponsors people k).bind (fun a => a.primary_sponsor)).getD ("")
      = primary_sponsor_spec sponsors people k := by
  unfold sponsorAggFor primary_sponsor_spec
  by_cases hk : k ∈ (sortedMergedSponsors sponsors people).map (fun r => r.bill_id)
  · rw [if_pos hk]
    show ((mkSponsorAgg (sortedMergedSponsors sponsors people) k).primary_sponsor).getD ("")
      = _
    unfold mkSponsorAgg
    dsimp only
    rw [sortedMergedSponsors_eq_map sponsors people hp,
      filter_key_map_mergeOne people (insSort sponsorRowLe sponsors) k]
    have hfp : (((insSort sponsorRowLe sponsors).filter (fun s => s.bill_id == k)).map
          (mergeOneSponsor people)).filter (fun r => r.position == 1)
        = (((insSort sponsorRowLe sponsors).filter (fun s => s.bill_id == k)).filter
            (fun s => s.position == 1)).map (mergeOneSponsor people) := by
      rw [List.filter_map]
      congr 1
      apply List.filter_congr
      intro s _
      simp [Function.comp, mergeOneSponsor_position]
    rw [hfp, List.head?_map, head?_filter, find?_filter_and]
    cases hfind : (insSort sponsorRowLe sponsors).find?
        (fun s => s.bill_id == k && s.position == 1) with
    | none => rfl
    | some s0 =>
      show ((mergeOneSponsor people s0).name).getD ("")
        = ((people.find? (fun p => p.people_id == s0.people_id)).bind
            (fun p => p.name)).getD ("")
      rw [mergeOneSponsor_name]
  · rw [if_neg hk]
    have hfnone : (insSort sponsorRowLe sponsors).find?
        (fun s => s.bill_id == k && s.position == 1) = none := by
      rw [List.find?_eq_none]
      intro s hs hpred
      have hbid : s.bill_id = k := by
        have hb1 := (Bool.and_eq_true _ _).mp hpred |>.1
        exact beq_iff_eq.mp hb1
      apply hk
      rw [sortedMergedSponsors_eq_map sponsors people hp]
      refine List.mem_map.mpr ⟨mergeOneSponsor people s, List.mem_map_of_mem _ hs, ?_⟩
      rw [mergeOneSponsor_bill_id]
      exact hbid
    rw [hfnone]
    rfl

/-- Claim C4: for every bill row of the output, the `primary_sponsor`
column equals the sponsor name joined from the person table on
`people_id` for the first sponsorship row with `position == 1` in
`(bill_id, position)` sort order, and equals the empty string when no
sponsorship row with `position == 1` exists for that bill (an
unmatched person or a null name also serializes as the empty cell).
The person table is assumed key-proper on `people_id`, as the data
model requires. -/
theorem primary_sponsor_matches_spec (st : String) (bills : List BillRow)
    (people : List PersonRow) (sponsors : List SponsorRow)
    (history : List HistoryRow) (documents : List DocumentRow)
    (rollcalls : List RollcallRow)
    (hp : (people.map (fun p => p.people_id)).Nodup) :
    ∀ outRow ∈ process_csv_dir st bills people sponsors history documents rollcalls,
      outRow.primary_sponsor = primary_sponsor_spec sponsors people outRow.bill_id := by
  intro outRow hout
  rw [process_csv_dir_eq] at hout
  rcases List.mem_map.mp hout with ⟨b, hb, hEq⟩
  subst hEq
  exact sponsorAggFor_primary sponsors people b.bill_id hp

/-- Witness for claim C4 at the concrete dataset, on bill `A`'s output
row (bill `A` has a position-1 sponsorship by person `p1`, named
`Ann`). -/
theorem primary_sponsor_matches_spec_witness :
    outAW.primary_sponsor = primary_sponsor_spec sponsorsW peopleW outAW.bill_id :=
  primary_sponsor_matches_spec ("KS") billsW peopleW sponsorsW historyW
    documentsW rollcallsW (by decide) outAW (by decide)

/-! #### The state-code column (claim C5) -/

/-- Claim C5, counterexample: a dataset directory whose grandparent is
named `2021-2022` (exactly the layout shown in the comment of
`join_legiscan_csvs.py`: `.../legiscan-bulk-csv/2021-2022/AK/...`).
The `join_legiscan_csvs.py` implementation of the Per-Bill Aggregator
inserts the raw directory name as the state column, which differs from
stripping all non-letter characters, so the claim fails for that
implementation. -/
theorem scripts_state_code_not_stripped :
    state_code_scripts ("2021-2022") = "2021-2022"
    ∧ letters_only ("2021-2022") = ""
    ∧ (process_csv_dir (state_code_scripts ("2021-2022"))
          [BillRow.mk ("B1") []] [] [] [] [] []).map (fun o => o.state)
        = ["2021-2022"]
    ∧ state_code_scripts ("2021-2022") ≠ letters_only ("2021-2022") := by
  refine ⟨rfl, by decide, by decide, by decide⟩

/-- Claim C5 (amended: restricted to the `concat_with_join_legiscan.py`
implementation; the `join_legiscan_csvs.py` implementation inserts the
raw name of the directory two levels above, without stripping): every
output row's `state` value — the first output column — equals the
letters-only stripping of the name of the directory two levels above
the dataset directory. -/
theorem combined_state_code_letters_only (ppn : String) (bills : List BillRow)
    (people : List PersonRow) (sponsors : List SponsorRow)
    (history : List HistoryRow) (documents : List DocumentRow)
    (rollcalls : List RollcallRow) :
    ∀ outRow ∈ process_csv_dir (state_code_combined ppn) bills people sponsors
        history documents rollcalls,
      outRow.state = letters_only ppn := by
  intro outRow hout
  rw [process_csv_dir_eq] at hout
  rcases List.mem_map.mp hout with ⟨b, hb, hEq⟩
  subst hEq
  rfl

/-- The output row of the C5 witness, for a grandparent directory
named `K4S`. -/
def outCW : OutRow :=
  mkOutRow (state_code_combined ("K4S")) (BillRow.mk ("A") [])
    (sponsorAggFor sponsorsW peopleW ("A"))
    (historyAggFor historyW ("A"))
    (documentAggFor documentsW ("A"))
    (rollcallAggFor rollcallsW ("A"))

/-- Witness for the amended claim C5: the grandparent name `K4S`
yields the state `KS`. -/
theorem combined_state_code_letters_only_witness :
    outCW.state = letters_only ("K4S") :=
  combined_state_code_letters_only ("K4S") billsW peopleW sponsorsW historyW
    documentsW rollcallsW outCW (by decide)

end ArcRadius
